import Mathlib

set_option autoImplicit false

/-!
Verification development for `plugins/waifu5/cells/text_analyzer.py`
(`TextAnalyzer`): a shallow embedding of its string pipeline, segmentation
response normalization, term-frequency and sentiment computations, the
unrecognized-word store, and the dictionary cache, followed by theorems
checking the specification's claims.

Python strings are embedded as `List Char`; `dict`/JSON values as the
inductive `Json`; exceptions as `Except PyError`.
-/

namespace Waifu

/-! ### Python string primitives -/

/-- Whether `pat` is a leading segment of `s` (Python `s.startswith(pat)`). -/
def startsWith : List Char → List Char → Bool
  | [], _ => true
  | _ :: _, [] => false
  | p :: ps, c :: cs => p == c && startsWith ps cs

/-- Python's substring containment test `pat in s`. -/
def containsSub (pat : List Char) : List Char → Bool
  | [] => pat.isEmpty
  | c :: rest => startsWith pat (c :: rest) || containsSub pat rest

/-- Worker for `removeOcc`: scans `s` left to right; `skip > 0` means we are
still inside a just-matched occurrence and must drop `skip` characters.
At `skip = 0`, a (nonempty) match of `pat` starting here is dropped —
the head now and `pat.length - 1` further characters via the counter —
and scanning resumes after it; otherwise the head is kept. -/
def removeOccGo (pat : List Char) : List Char → Nat → List Char
  | [], _ => []
  | _ :: rest, Nat.succ skip => removeOccGo pat rest skip
  | c :: rest, 0 =>
    if !pat.isEmpty && startsWith pat (c :: rest) then
      removeOccGo pat rest (pat.length - 1)
    else
      c :: removeOccGo pat rest 0

/-- Python `s.replace(pat, "")`: removes every non-overlapping occurrence of
`pat` from `s`, scanning left to right (the empty pattern removes nothing). -/
def removeOcc (pat s : List Char) : List Char :=
  removeOccGo pat s 0

/-- Models `TextAnalyzer._remove_meaningless`, given the already-loaded
`meaningless` dictionary list: `for word in meaningless: text =
text.replace(word, "")`, i.e. a left fold of literal substring removal in
dictionary order. -/
def remove_meaningless (meaningless : List (List Char)) (text : List Char) : List Char :=
  meaningless.foldl (fun t w => removeOcc w t) text

/-! ### Sorting and deduplication (Python `sorted(set(...))`) -/

/-- Python string `<`: lexicographic comparison by character code point. -/
def strLt : List Char → List Char → Bool
  | [], [] => false
  | [], _ :: _ => true
  | _ :: _, [] => false
  | a :: as, b :: bs => if a < b then true else if a = b then strLt as bs else false

/-- Non-strict lexicographic order on embedded strings. -/
def strLe (a b : List Char) : Bool :=
  strLt a b || a == b

/-- Insert a string into a `strLe`-sorted list. -/
def insertStr (x : List Char) : List (List Char) → List (List Char)
  | [] => [x]
  | y :: ys => if strLe x y then x :: y :: ys else y :: insertStr x ys

/-- Insertion sort by `strLe`; models Python `sorted` on a list of strings. -/
def sortStrs : List (List Char) → List (List Char)
  | [] => []
  | x :: xs => insertStr x (sortStrs xs)

/-- Keep one copy of each distinct string (models conversion to a `set`;
which occurrence survives is irrelevant because the result is sorted next). -/
def dedupStrs : List (List Char) → List (List Char)
  | [] => []
  | w :: rest => if w ∈ rest then dedupStrs rest else w :: dedupStrs rest

/-- Python `sorted(set(l))`: the sorted list of the distinct elements of `l`. -/
def sortedDedup (l : List (List Char)) : List (List Char) :=
  sortStrs (dedupStrs l)

/-! ### `collections.Counter` -/

/-- One iteration step of `collections.Counter`: increment the count of `w`
in the association list `acc`, appending a fresh `(w, 1)` entry if absent. -/
def bump (w : List Char) : List (List Char × Nat) → List (List Char × Nat)
  | [] => [(w, 1)]
  | (k, n) :: rest => if k == w then (k, n + 1) :: rest else (k, n) :: bump w rest

/-- `collections.Counter(ws)` as an association list: keys in first-insertion
order, each mapped to its number of occurrences in `ws`. -/
def counterOf (ws : List (List Char)) : List (List Char × Nat) :=
  ws.foldl (fun acc w => bump w acc) []

/-! ### Token filters -/

/-- Models `TextAnalyzer._remove_punctuation`, parametrized by the
word-character predicate of Python's Unicode regex class `\w`: a token is
kept iff `re.search(r"[^\w]", word)` finds nothing, i.e. iff every character
is a word character (the empty token is kept). -/
def remove_punctuation (isWordChar : Char → Bool) (words : List (List Char)) : List (List Char) :=
  words.filter (fun w => w.all isWordChar)

/-- After at least one digit has been consumed: `re` match of the remainder
of `\d+u` — succeed on `u` now, or consume another digit and continue. -/
def restDigitsUnit (isDigitChar : Char → Bool) (unit : Char) : List Char → Bool
  | [] => false
  | c :: rest => c == unit || (isDigitChar c && restDigitsUnit isDigitChar unit rest)

/-- Match of the pattern `\d+u` starting exactly at the head of the list. -/
def headDigitsUnit (isDigitChar : Char → Bool) (unit : Char) : List Char → Bool
  | [] => false
  | c :: rest => isDigitChar c && restDigitsUnit isDigitChar unit rest

/-- Python `re.search(r"\d+u", item)`: the pattern matches at some position. -/
def searchDigitsUnit (isDigitChar : Char → Bool) (unit : Char) : List Char → Bool
  | [] => false
  | c :: rest => headDigitsUnit isDigitChar unit (c :: rest) || searchDigitsUnit isDigitChar unit rest

/-- Models the `is_unwanted` closure inside `TextAnalyzer._remove_unless_words`:
`any(re.search(p, item) for p in [r"^\d+$", r"\d+年", r"\d+月", r"\d+日", r"\d+分"])`.
`re.search(r"^\d+$", item)` holds iff `item` is nonempty and all digits. -/
def is_unwanted (isDigitChar : Char → Bool) (item : List Char) : Bool :=
  (!item.isEmpty && item.all isDigitChar)
    || searchDigitsUnit isDigitChar '年' item
    || searchDigitsUnit isDigitChar '月' item
    || searchDigitsUnit isDigitChar '日' item
    || searchDigitsUnit isDigitChar '分' item

/-- Models `TextAnalyzer._remove_unless_words`: keep `item` iff
`len(item) > 1 and not is_unwanted(item)`. -/
def remove_unless_words (isDigitChar : Char → Bool) (items : List (List Char)) : List (List Char) :=
  items.filter (fun item => decide (1 < item.length) && !is_unwanted isDigitChar item)

/-- The two character-class predicates of the regexes in the source
(`\w` and `\d` under `re.UNICODE`), kept abstract because the pipeline's
behavior is uniform in them. -/
structure RegexChars where
  isWord : Char → Bool
  isDigit : Char → Bool

/-- The ASCII restriction of Python's Unicode `\w` / `\d` classes, used to
evaluate the model on concrete ASCII inputs (on which it is exact). -/
def asciiRegex : RegexChars :=
  ⟨fun c => c.isAlphanum || c == '_', Char.isDigit⟩

/-! ### JSON values and Python dictionary access

The segmentation response decoded by `r.json()` is embedded as `Json`.
Python exceptions raised during its normalization become `Except PyError`.
Non-string `"str"`/`"tag"`/`"i18n"` values and non-array list values — which
the Python code would carry along only to fail on later string operations —
are modelled as an immediate `typeError`; no claim exercises them. -/

/-- The mis-steps the response-normalization code can take: a missing
mandatory dictionary key (Python `KeyError`), `.get` on a non-dictionary
(Python `AttributeError`), or a value of an unexpected shape. -/
inductive PyError where
  | keyError (key : List Char)
  | attributeError
  | typeError
deriving DecidableEq

/-- A decoded JSON value. -/
inductive Json where
  | null
  | str (s : List Char)
  | arr (items : List Json)
  | obj (fields : List (List Char × Json))

/-- Python `d.get(key, default)`: on a dictionary, the value under `key` or
`default`; on anything else an `AttributeError`. -/
def Json.dictGet : Json → List Char → Json → Except PyError Json
  | .obj fields, key, dflt =>
    match fields.find? (fun p => p.1 == key) with
    | some p => .ok p.2
    | none => .ok dflt
  | _, _, _ => .error .attributeError

/-- Python `d[key]`: on a dictionary, the value under `key` or a `KeyError`;
on anything else a `TypeError`. -/
def Json.dictIndex : Json → List Char → Except PyError Json
  | .obj fields, key =>
    match fields.find? (fun p => p.1 == key) with
    | some p => .ok p.2
    | none => .error (.keyError key)
  | _, _ => .error .typeError

/-- Require a JSON array (Python iteration over the value). -/
def Json.asArr : Json → Except PyError (List Json)
  | .arr items => .ok items
  | _ => .error .typeError

/-- Require a JSON string. -/
def Json.asStr : Json → Except PyError (List Char)
  | .str s => .ok s
  | _ => .error .typeError

/-! ### Segmentation response normalization (`_parse_texsmart_response`) -/

/-- One entry of the normalized `word_list`/`phrase_list`:
`{"str": ..., "tag": ...}`. -/
structure TokenItem where
  str : List Char
  tag : List Char
deriving DecidableEq

/-- One entry of the normalized `entity_list`:
`{"str": ..., "tag": ..., "i18n": ..., "related": [...]}`. -/
structure EntityItem where
  str : List Char
  tag : List Char
  i18n : List Char
  related : List (List Char)
deriving DecidableEq

/-- The normalized response `parsed_data`. -/
structure ParsedData where
  word_list : List TokenItem
  phrase_list : List TokenItem
  entity_list : List EntityItem
deriving DecidableEq

/-- Key constants of the response JSON. -/
def kStr : List Char := ['s', 't', 'r']

/-- The `"tag"` key. -/
def kTag : List Char := ['t', 'a', 'g']

/-- The `"word_list"` key. -/
def kWordList : List Char := ['w', 'o', 'r', 'd', '_', 'l', 'i', 's', 't']

/-- The `"phrase_list"` key. -/
def kPhraseList : List Char := ['p', 'h', 'r', 'a', 's', 'e', '_', 'l', 'i', 's', 't']

/-- The `"entity_list"` key. -/
def kEntityList : List Char := ['e', 'n', 't', 'i', 't', 'y', '_', 'l', 'i', 's', 't']

/-- The `"meaning"` key. -/
def kMeaning : List Char := ['m', 'e', 'a', 'n', 'i', 'n', 'g']

/-- The `"related"` key. -/
def kRelated : List Char := ['r', 'e', 'l', 'a', 't', 'e', 'd']

/-- The `"type"` key. -/
def kType : List Char := ['t', 'y', 'p', 'e']

/-- The `"i18n"` key. -/
def kI18n : List Char := ['i', '1', '8', 'n']

/-- The `"error"` key of the failure marker payload. -/
def kError : List Char := ['e', 'r', 'r', 'o', 'r']

/-- `{"str": word["str"], "tag": word["tag"]}` for a `word_list` or
`phrase_list` element: both keys are mandatory (direct indexing). -/
def parseTokenItem (j : Json) : Except PyError TokenItem := do
  let s ← (← j.dictIndex kStr).asStr
  let t ← (← j.dictIndex kTag).asStr
  return ⟨s, t⟩

/-- An `entity_list` element, in the source's evaluation order:
`entity.get("meaning", {})` first, then `entity["str"]`, `entity["tag"]`,
`entity["type"].get("i18n", "")`, `entity_meaning.get("related", [])`.
`str`, `tag` and `type` are mandatory; `meaning`, `i18n` and `related`
default to empty. -/
def parseEntityItem (j : Json) : Except PyError EntityItem := do
  let meaning ← j.dictGet kMeaning (.obj [])
  let s ← (← j.dictIndex kStr).asStr
  let t ← (← j.dictIndex kTag).asStr
  let ty ← j.dictIndex kType
  let i ← (← ty.dictGet kI18n (.str [])).asStr
  let relA ← (← meaning.dictGet kRelated (.arr [])).asArr
  let rel ← relA.mapM Json.asStr
  return ⟨s, t, i, rel⟩

/-- Models `TextAnalyzer._parse_texsmart_response`: the three top-level list
keys default to the empty list via `.get`, then each element is normalized
(the loops over `word_list`, `phrase_list`, `entity_list`, in that order). -/
def parse_texsmart_response (response : Json) : Except PyError ParsedData := do
  let wl ← (← response.dictGet kWordList (.arr [])).asArr
  let word_list ← wl.mapM parseTokenItem
  let pl ← (← response.dictGet kPhraseList (.arr [])).asArr
  let phrase_list ← pl.mapM parseTokenItem
  let el ← (← response.dictGet kEntityList (.arr [])).asArr
  let entity_list ← el.mapM parseEntityItem
  return ⟨word_list, phrase_list, entity_list⟩

/-! ### The segmentation call (`_call_texsmart_api`) -/

/-- The environment's behavior for one HTTP call: either the decoded JSON
response, or one of the three caught failure classes
(`requests.RequestException`, `json.JSONDecodeError`, any other exception). -/
inductive ApiOutcome where
  | success (response : Json)
  | requestFailed
  | jsonDecodeFailed
  | unexpectedError

/-- The `"Request failed"` marker message. -/
def msgRequestFailed : List Char :=
  ['R', 'e', 'q', 'u', 'e', 's', 't', ' ', 'f', 'a', 'i', 'l', 'e', 'd']

/-- The `"JSON decode failed"` marker message. -/
def msgJsonDecodeFailed : List Char :=
  ['J', 'S', 'O', 'N', ' ', 'd', 'e', 'c', 'o', 'd', 'e', ' ', 'f', 'a', 'i', 'l', 'e', 'd']

/-- The `"An unexpected error occurred"` marker message. -/
def msgUnexpectedError : List Char :=
  ['A', 'n', ' ', 'u', 'n', 'e', 'x', 'p', 'e', 'c', 't', 'e', 'd', ' ', 'e', 'r', 'r', 'o', 'r',
   ' ', 'o', 'c', 'c', 'u', 'r', 'r', 'e', 'd']

/-- Models `TextAnalyzer._call_texsmart_api`: a total function — every
failure class is caught and converted into the `{"error": <reason>}` marker
payload, so the call never propagates an exception. The request text only
forms the POST body and does not influence the modelled outcome. -/
def call_texsmart_api : ApiOutcome → Json
  | .success j => j
  | .requestFailed => .obj [(kError, .str msgRequestFailed)]
  | .jsonDecodeFailed => .obj [(kError, .str msgJsonDecodeFailed)]
  | .unexpectedError => .obj [(kError, .str msgUnexpectedError)]

/-! ### Term frequency (`term_freq`) -/

/-- The triple returned by `term_freq`: the `Counter`, the entity type
labels, and the related-concept strings. -/
structure TermFreqResult where
  freq : List (List Char × Nat)
  i18n_list : List (List Char)
  related_list : List (List Char)
deriving DecidableEq

/-- The part of `TextAnalyzer.term_freq` after the segmentation response is
normalized: extract the `word_list` strings, the entity labels, and the
flattened related concepts; filter; `sorted(set(...))` each; then count the
already-deduplicated word list with `Counter`. -/
def termFreqOnParsed (R : RegexChars) (parsed : ParsedData) : TermFreqResult :=
  let words := parsed.word_list.map TokenItem.str
  let i18n_list := parsed.entity_list.map EntityItem.i18n
  let related_list := (parsed.entity_list.map EntityItem.related).flatten
  let words := remove_punctuation R.isWord words
  let words := remove_unless_words R.isDigit words
  let i18n_list := remove_punctuation R.isWord i18n_list
  let related_list := remove_punctuation R.isWord related_list
  let words := sortedDedup words
  let i18n_list := sortedDedup i18n_list
  let related_list := sortedDedup related_list
  ⟨counterOf words, i18n_list, related_list⟩

/-- Models `TextAnalyzer.term_freq`: normalize the text, perform the
segmentation call, normalize the response (whose `KeyError` propagates out),
then run the token pipeline. -/
def term_freq (R : RegexChars) (meaningless : List (List Char)) (text : List Char)
    (outcome : ApiOutcome) : Except PyError TermFreqResult :=
  let _sent := remove_meaningless meaningless text
  match parse_texsmart_response (call_texsmart_api outcome) with
  | .error e => .error e
  | .ok parsed => .ok (termFreqOnParsed R parsed)

/-! ### Sentiment (`sentiment`) -/

/-- The running tallies of the classification loop: the two counters of
`result_dict` and the three `output` buckets (in encounter order, before the
unrecognized bucket is deduplicated). -/
structure Tally where
  positive_num : Nat
  negative_num : Nat
  positive : List (List Char)
  negative : List (List Char)
  unrecognized : List (List Char)
deriving DecidableEq

/-- The classification loop of `TextAnalyzer.sentiment`, over the surviving
tokens in original order: exact membership in the positive list counts as
positive; else any negative-dictionary entry occurring as a literal
substring counts as negative; else the token is unrecognized. -/
def classify (positive_list negative_list : List (List Char)) : List (List Char) → Tally
  | [] => ⟨0, 0, [], [], []⟩
  | w :: ws =>
    let r := classify positive_list negative_list ws
    if w ∈ positive_list then
      ⟨r.positive_num + 1, r.negative_num, w :: r.positive, r.negative, r.unrecognized⟩
    else if negative_list.any (fun nw => containsSub nw w) then
      ⟨r.positive_num, r.negative_num + 1, r.positive, w :: r.negative, r.unrecognized⟩
    else
      ⟨r.positive_num, r.negative_num, r.positive, r.negative, w :: r.unrecognized⟩

/-- The `result_dict` returned by `sentiment`. -/
structure SentimentReport where
  positive_num : Nat
  negative_num : Nat
  word_num : Nat
deriving DecidableEq

/-- The three `output` buckets as they stand at the end of `sentiment`
(the unrecognized bucket already deduplicated and sorted). -/
structure SentimentBuckets where
  positive : List (List Char)
  negative : List (List Char)
  unrecognized : List (List Char)
deriving DecidableEq

/-- Models `TextAnalyzer._save_unrecognized_words` acting on the persisted
store: the store is `none` when the file is absent (or holds nothing under
`"unrecognized"`), else `some` of the stored list; the new content is
`sorted(set(existing_words + words))`, written in full. -/
def save_unrecognized_words (store : Option (List (List Char))) (words : List (List Char)) :
    Option (List (List Char)) :=
  let existing_words := store.getD []
  some (sortedDedup (existing_words ++ words))

/-- The list a store holds (`[]` for an absent file). -/
def storeWords (store : Option (List (List Char))) : List (List Char) :=
  store.getD []

/-- The part of `TextAnalyzer.sentiment` after the segmentation response is
normalized, given the already-loaded positive/negative lists: extract the
`phrase_list` strings, drop punctuation tokens, count them (`word_num`),
classify, deduplicate and sort the unrecognized bucket, and persist it. -/
def sentimentOnParsed (R : RegexChars) (positive_list negative_list : List (List Char))
    (parsed : ParsedData) (store : Option (List (List Char))) :
    SentimentReport × SentimentBuckets × Option (List (List Char)) :=
  let words := parsed.phrase_list.map TokenItem.str
  let words := remove_punctuation R.isWord words
  let word_num := words.length
  let t := classify positive_list negative_list words
  let unrecognized := sortedDedup t.unrecognized
  (⟨t.positive_num, t.negative_num, word_num⟩,
   ⟨t.positive, t.negative, unrecognized⟩,
   save_unrecognized_words store unrecognized)

/-- Models `TextAnalyzer.sentiment`: normalize the text, perform the
segmentation call, normalize the response (whose `KeyError` propagates out),
then classify and persist. The positive and negative lists are the
dictionary entries `positive_dict.get("positive", [])` and
`negative_dict.get("negative", [])` obtained through the cache. -/
def sentiment (R : RegexChars) (positive_list negative_list meaningless : List (List Char))
    (text : List Char) (outcome : ApiOutcome) (store : Option (List (List Char))) :
    Except PyError (SentimentReport × SentimentBuckets × Option (List (List Char))) :=
  let _sent := remove_meaningless meaningless text
  match parse_texsmart_response (call_texsmart_api outcome) with
  | .error e => .error e
  | .ok parsed => .ok (sentimentOnParsed R positive_list negative_list parsed store)

/-! ### The dictionary cache (`_load_yaml_dict`) -/

/-- What one call of `_load_yaml_dict` did: which file was requested, the
dictionary data it returned, and whether the configuration source was
actually read (a cache miss) or the cached value was returned. -/
structure LoadEvent (D : Type) where
  name : List Char
  value : D
  readSource : Bool
deriving DecidableEq

/-- Models one call of `TextAnalyzer._load_yaml_dict` against the
process-wide cache `LOADED_DICTIONARIES` (an association list) and the
configuration source (the `ConfigManager` collaborator, a pure map from
file name to data within one process): a hit returns the cached value; a
miss reads the source, stores the result under the name, and returns it. -/
def load_yaml_dict {D : Type} (source : List Char → D) (cache : List (List Char × D))
    (file : List Char) : D × List (List Char × D) × Bool :=
  match cache.find? (fun p => p.1 == file) with
  | some p => (p.2, cache, false)
  | none => (source file, cache ++ [(file, source file)], true)

/-- A sequence of `_load_yaml_dict` calls within one process, from a given
cache state, recording each call's result and whether it read the source. -/
def loadTrace {D : Type} (source : List Char → D) :
    List (List Char × D) → List (List Char) → List (LoadEvent D)
  | _, [] => []
  | cache, f :: fs =>
    let r := load_yaml_dict source cache f
    ⟨f, r.1, r.2.2⟩ :: loadTrace source r.2.1 fs

/-- How many calls in a trace read the source for the file `f`. -/
def countReads {D : Type} (f : List Char) (trace : List (LoadEvent D)) : Nat :=
  trace.countP (fun e => e.name == f && e.readSource)

/-! ### Lemmas about substring removal -/

/-- Removing a pattern that does not occur in `s` leaves `s` unchanged. -/
theorem removeOccGo_id (pat : List Char) :
    ∀ s : List Char, containsSub pat s = false → removeOccGo pat s 0 = s := by
  intro s
  induction s with
  | nil => intro _; rfl
  | cons c rest ih =>
    intro h
    simp only [containsSub, Bool.or_eq_false_iff] at h
    simp [removeOccGo, h.1, ih h.2]

/-- Removing the empty pattern leaves `s` unchanged (Python
`s.replace("", "")` is the identity). -/
theorem removeOccGo_nil : ∀ s : List Char, removeOccGo [] s 0 = s := by
  intro s
  induction s with
  | nil => rfl
  | cons c rest ih => simp [removeOccGo, List.isEmpty, ih]

/-- Normalization fixes any text free of the (nonempty) meaningless phrases. -/
theorem remove_meaningless_id :
    ∀ (ml : List (List Char)) (t : List Char),
      (∀ w ∈ ml, w = [] ∨ containsSub w t = false) → remove_meaningless ml t = t := by
  intro ml
  induction ml with
  | nil => intro t _; rfl
  | cons w ws ih =>
    intro t h
    have hw : removeOcc w t = t := by
      rcases h w (List.mem_cons_self w ws) with h1 | h1
      · subst h1; exact removeOccGo_nil t
      · exact removeOccGo_id w t h1
    have step : remove_meaningless (w :: ws) t = remove_meaningless ws (removeOcc w t) := rfl
    rw [step, hw]
    exact ih t (fun v hv => h v (List.mem_cons_of_mem w hv))

/-! ### Lemmas about `sortedDedup` -/

/-- Insertion produces a permutation of consing. -/
theorem insertStr_perm (x : List Char) (l : List (List Char)) :
    List.Perm (insertStr x l) (x :: l) := by
  induction l with
  | nil => exact List.Perm.refl _
  | cons y ys ih =>
    simp only [insertStr]
    split
    · exact List.Perm.refl _
    · exact (ih.cons y).trans (List.Perm.swap x y ys)

/-- Sorting permutes the list. -/
theorem sortStrs_perm (l : List (List Char)) : List.Perm (sortStrs l) l := by
  induction l with
  | nil => exact List.Perm.refl _
  | cons x xs ih => exact (insertStr_perm x (sortStrs xs)).trans (ih.cons x)

/-- Deduplication preserves membership. -/
theorem mem_dedupStrs (a : List Char) :
    ∀ l : List (List Char), a ∈ dedupStrs l ↔ a ∈ l := by
  intro l
  induction l with
  | nil => simp [dedupStrs]
  | cons w rest ih =>
    by_cases hw : w ∈ rest
    · simp only [dedupStrs, if_pos hw, ih, List.mem_cons]
      exact ⟨fun h => Or.inr h, fun h => h.elim (fun e => e ▸ hw) id⟩
    · simp [dedupStrs, if_neg hw, List.mem_cons, ih]

/-- Deduplication yields a list of distinct elements. -/
theorem nodup_dedupStrs : ∀ l : List (List Char), (dedupStrs l).Nodup := by
  intro l
  induction l with
  | nil => simp [dedupStrs]
  | cons w rest ih =>
    by_cases hw : w ∈ rest
    · simpa [dedupStrs, if_pos hw] using ih
    · simp [dedupStrs, if_neg hw, List.nodup_cons, mem_dedupStrs, hw, ih]

/-- `sortedDedup` preserves membership. -/
theorem mem_sortedDedup (a : List Char) (l : List (List Char)) :
    a ∈ sortedDedup l ↔ a ∈ l := by
  rw [sortedDedup, (sortStrs_perm (dedupStrs l)).mem_iff, mem_dedupStrs]

/-- `sortedDedup` yields a list of distinct elements. -/
theorem nodup_sortedDedup (l : List (List Char)) : (sortedDedup l).Nodup := by
  exact ((sortStrs_perm (dedupStrs l)).nodup_iff).mpr (nodup_dedupStrs l)

/-! ### Lemmas about `counterOf` -/

/-- A key of `bump w acc` is `w` or a key of `acc`. -/
theorem mem_bump (w : List Char) :
    ∀ (acc : List (List Char × Nat)) (p : List Char × Nat),
      p ∈ bump w acc → p.1 = w ∨ p.1 ∈ acc.map Prod.fst := by
  intro acc
  induction acc with
  | nil =>
    intro p hp
    simp only [bump, List.mem_singleton] at hp
    exact Or.inl (by rw [hp])
  | cons q rest ih =>
    intro p hp
    obtain ⟨k, n⟩ := q
    by_cases hk : (k == w) = true
    · simp only [bump, if_pos hk, List.mem_cons] at hp
      rcases hp with rfl | hp
      · exact Or.inl (by simpa using hk)
      · refine Or.inr ?_
        rw [List.map_cons]
        exact List.mem_cons_of_mem _ (List.mem_map_of_mem Prod.fst hp)
    · simp only [bump, if_neg hk, List.mem_cons] at hp
      rcases hp with rfl | hp
      · exact Or.inr (by simp)
      · rcases ih p hp with h | h
        · exact Or.inl h
        · refine Or.inr ?_
          rw [List.map_cons]
          exact List.mem_cons_of_mem _ h

/-- Incrementing a key absent from `acc` appends a fresh unit entry. -/
theorem bump_fresh (w : List Char) :
    ∀ acc : List (List Char × Nat), (∀ p ∈ acc, p.1 ≠ w) → bump w acc = acc ++ [(w, 1)] := by
  intro acc
  induction acc with
  | nil => intro _; rfl
  | cons q rest ih =>
    intro h
    obtain ⟨k, n⟩ := q
    have hk : (k == w) = false := by
      have := h (k, n) (List.mem_cons_self _ _)
      simpa using this
    simp only [bump, if_neg (by simp [hk] : ¬(k == w) = true), List.cons_append]
    rw [ih (fun p hp => h p (List.mem_cons_of_mem _ hp))]

/-- Every key of the counter fold comes from the accumulator or the input. -/
theorem counter_foldl_keys :
    ∀ (ws : List (List Char)) (acc : List (List Char × Nat)) (p : List Char × Nat),
      p ∈ ws.foldl (fun a w => bump w a) acc → p.1 ∈ acc.map Prod.fst ∨ p.1 ∈ ws := by
  intro ws
  induction ws with
  | nil => intro acc p hp; exact Or.inl (List.mem_map_of_mem Prod.fst hp)
  | cons w rest ih =>
    intro acc p hp
    have step : (w :: rest).foldl (fun a v => bump v a) acc =
        rest.foldl (fun a v => bump v a) (bump w acc) := rfl
    rw [step] at hp
    rcases ih (bump w acc) p hp with h | h
    · obtain ⟨q, hq, hq1⟩ := List.mem_map.mp h
      rcases mem_bump w acc q hq with h1 | h1
      · exact Or.inr (by simp [List.mem_cons, ← hq1, h1])
      · exact Or.inl (hq1 ▸ h1)
    · exact Or.inr (List.mem_cons_of_mem w h)

/-- Every key of `counterOf ws` occurs in `ws`. -/
theorem counterOf_keys (ws : List (List Char)) (p : List Char × Nat) :
    p ∈ counterOf ws → p.1 ∈ ws := by
  intro hp
  rcases counter_foldl_keys ws [] p hp with h | h
  · simp at h
  · exact h

/-- Counting a duplicate-free list starting from an accumulator of unit
counts whose keys do not recur yields only unit counts. -/
theorem counter_foldl_one :
    ∀ (ws : List (List Char)) (acc : List (List Char × Nat)),
      ws.Nodup → (∀ p ∈ acc, p.2 = 1) → (∀ p ∈ acc, p.1 ∉ ws) →
      ∀ p ∈ ws.foldl (fun a w => bump w a) acc, p.2 = 1 := by
  intro ws
  induction ws with
  | nil => intro acc _ h2 _ p hp; exact h2 p hp
  | cons w rest ih =>
    intro acc hnd h2 h3 p hp
    have hfresh : ∀ q ∈ acc, q.1 ≠ w := by
      intro q hq he
      exact h3 q hq (he ▸ List.mem_cons_self w rest)
    have step : (w :: rest).foldl (fun a v => bump v a) acc =
        rest.foldl (fun a v => bump v a) (bump w acc) := rfl
    rw [step, bump_fresh w acc hfresh] at hp
    refine ih (acc ++ [(w, 1)]) (List.Nodup.of_cons hnd) ?_ ?_ p hp
    · intro q hq
      rcases List.mem_append.mp hq with h | h
      · exact h2 q h
      · simp only [List.mem_singleton] at h
        rw [h]
    · intro q hq
      rcases List.mem_append.mp hq with h | h
      · intro hmem
        exact h3 q h (List.mem_cons_of_mem w hmem)
      · simp only [List.mem_singleton] at h
        rw [h]
        exact (List.nodup_cons.mp hnd).1

/-- `Counter` applied to a duplicate-free list reports count 1 everywhere. -/
theorem counterOf_count_one (ws : List (List Char)) (hnd : ws.Nodup) :
    ∀ p ∈ counterOf ws, p.2 = 1 := by
  intro p hp
  exact counter_foldl_one ws [] hnd (by simp) (by simp) p hp

/-! ### Lemmas about `classify` -/

/-- Full characterization of the classification loop: the positive counter
counts exact positive membership, the negative counter counts the remaining
tokens with a negative-entry substring, and the three buckets are the
corresponding filters, all in encounter order. -/
theorem classify_eq (positive_list negative_list : List (List Char)) :
    ∀ ws : List (List Char),
      classify positive_list negative_list ws =
        ⟨ws.countP (fun w => decide (w ∈ positive_list)),
         ws.countP (fun w => !decide (w ∈ positive_list) &&
           negative_list.any (fun nw => containsSub nw w)),
         ws.filter (fun w => decide (w ∈ positive_list)),
         ws.filter (fun w => !decide (w ∈ positive_list) &&
           negative_list.any (fun nw => containsSub nw w)),
         ws.filter (fun w => !decide (w ∈ positive_list) &&
           !negative_list.any (fun nw => containsSub nw w))⟩ := by
  intro ws
  induction ws with
  | nil => rfl
  | cons w rest ih =>
    by_cases h1 : w ∈ positive_list
    · simp [classify, ih, h1, List.countP_cons, List.filter_cons]
    · by_cases h2 : (negative_list.any fun nw => containsSub nw w) = true
      · simp [classify, ih, h1, h2, List.countP_cons, List.filter_cons]
      · simp [classify, ih, h1, h2, List.countP_cons, List.filter_cons]

/-- Each token increments at most one of the two counters. -/
theorem classify_le (positive_list negative_list : List (List Char)) :
    ∀ ws : List (List Char),
      (classify positive_list negative_list ws).positive_num +
        (classify positive_list negative_list ws).negative_num ≤ ws.length := by
  intro ws
  induction ws with
  | nil => simp [classify]
  | cons w rest ih =>
    by_cases h1 : w ∈ positive_list
    · simp only [classify, if_pos h1, List.length_cons]
      omega
    · by_cases h2 : (negative_list.any fun nw => containsSub nw w) = true
      · simp only [classify, if_neg h1, if_pos h2, List.length_cons]
        omega
      · simp only [classify, if_neg h1, if_neg h2, List.length_cons]
        omega

/-! ### Lemmas about the dictionary cache -/

/-- A trace records one event per requested file, in order. -/
theorem loadTrace_names {D : Type} (source : List Char → D) :
    ∀ (files : List (List Char)) (cache : List (List Char × D)),
      (loadTrace source cache files).map LoadEvent.name = files := by
  intro files
  induction files with
  | nil => intro cache; rfl
  | cons f fs ih => intro cache; simp [loadTrace, ih]

/-- If every cached value agrees with the source, every load in a trace
returns the source's data for its file. -/
theorem loadTrace_values {D : Type} (source : List Char → D) :
    ∀ (files : List (List Char)) (cache : List (List Char × D)),
      (∀ p ∈ cache, p.2 = source p.1) →
      ∀ e ∈ loadTrace source cache files, e.value = source e.name := by
  intro files
  induction files with
  | nil => intro cache _ e he; simp [loadTrace] at he
  | cons f fs ih =>
    intro cache hc e he
    cases hfind : cache.find? (fun p => p.1 == f) with
    | some p =>
      have hp2 : p.2 = source p.1 := hc p (List.mem_of_find?_eq_some hfind)
      have hkey : p.1 = f := by simpa using List.find?_some hfind
      simp only [loadTrace, load_yaml_dict, hfind] at he
      rcases List.mem_cons.mp he with rfl | he
      · simpa [hkey] using hp2
      · exact ih cache hc e he
    | none =>
      simp only [loadTrace, load_yaml_dict, hfind] at he
      rcases List.mem_cons.mp he with rfl | he
      · rfl
      · refine ih (cache ++ [(f, source f)]) ?_ e he
        intro q hq
        rcases List.mem_append.mp hq with h | h
        · exact hc q h
        · simp only [List.mem_singleton] at h
          rw [h]

/-- Files already present in the cache are never read from the source. -/
theorem countReads_zero {D : Type} (source : List Char → D) (f : List Char) :
    ∀ (files : List (List Char)) (cache : List (List Char × D)),
      (∃ p ∈ cache, p.1 = f) → countReads f (loadTrace source cache files) = 0 := by
  intro files
  induction files with
  | nil => intro cache _; rfl
  | cons g fs ih =>
    intro cache hin
    cases hfind : cache.find? (fun p => p.1 == g) with
    | some p =>
      simp only [loadTrace, load_yaml_dict, hfind, countReads, List.countP_cons]
      simp only [Bool.and_false, if_neg (by simp : ¬False)]
      have := ih cache hin
      simpa [countReads] using this
    | none =>
      obtain ⟨p, hp, hpf⟩ := hin
      have hgf : (g == f) = false := by
        refine beq_eq_false_iff_ne.mpr ?_
        intro e
        exact (List.find?_eq_none.mp hfind p hp) (by simp [hpf, e])
      simp only [loadTrace, load_yaml_dict, hfind, countReads, List.countP_cons]
      simp only [hgf, Bool.false_and, if_neg (by simp : ¬False)]
      have : (f, source g) = (f, source g) := rfl
      have hrec := ih (cache ++ [(g, source g)]) ⟨p, List.mem_append_left _ hp, hpf⟩
      simpa [countReads] using hrec

/-- From a cache not containing `f`, a run reads the source for `f` exactly
once when `f` is requested at all, and never otherwise. -/
theorem countReads_once {D : Type} (source : List Char → D) (f : List Char) :
    ∀ (files : List (List Char)) (cache : List (List Char × D)),
      (∀ p ∈ cache, p.1 ≠ f) →
      countReads f (loadTrace source cache files) = if f ∈ files then 1 else 0 := by
  intro files
  induction files with
  | nil => intro cache _; simp [loadTrace, countReads]
  | cons g fs ih =>
    intro cache hfree
    cases hfind : cache.find? (fun p => p.1 == g) with
    | some p =>
      have hkey : p.1 = g := by simpa using List.find?_some hfind
      have hgf : g ≠ f := hkey ▸ hfree p (List.mem_of_find?_eq_some hfind)
      have hfg : ¬f = g := fun h => hgf h.symm
      have hrec := ih cache hfree
      rw [countReads] at hrec
      simp only [loadTrace, load_yaml_dict, hfind, countReads, List.countP_cons]
      simp [hrec, List.mem_cons, hfg]
    | none =>
      by_cases hgf : g = f
      · subst hgf
        have hz := countReads_zero source g fs (cache ++ [(g, source g)])
          ⟨(g, source g), List.mem_append_right _ (List.mem_singleton.mpr rfl), rfl⟩
        rw [countReads] at hz
        simp only [loadTrace, load_yaml_dict, hfind, countReads, List.countP_cons]
        simp [hz, List.mem_cons]
      · have hfg : ¬f = g := fun h => hgf h.symm
        have hfreeNew : ∀ q ∈ cache ++ [(g, source g)], q.1 ≠ f := by
          intro q hq
          rcases List.mem_append.mp hq with h | h
          · exact hfree q h
          · simp only [List.mem_singleton] at h
            rw [h]
            exact hgf
        have hrec := ih (cache ++ [(g, source g)]) hfreeNew
        rw [countReads] at hrec
        have hb : (g == f) = false := beq_eq_false_iff_ne.mpr hgf
        simp only [loadTrace, load_yaml_dict, hfind, countReads, List.countP_cons]
        simp [hrec, hb, List.mem_cons, hfg]

/-! ### The claims -/

/-- C1: with positive dictionary `["good"]`, negative dictionary `["bad"]`,
and phrase tokens `["good", "badtime", "neutral"]` (no punctuation), the
report shows `positive_num = 1`, `negative_num = 1`, `word_num = 3` and the
unrecognized bucket is `["neutral"]`; in general each surviving token is
classified positive on exact membership in the positive list, else negative
when any negative-dictionary entry is a literal substring, else
unrecognized, the counters being incremented once per occurrence. -/
theorem sentiment_classification_c1 :
    (sentiment asciiRegex [['g', 'o', 'o', 'd']] [['b', 'a', 'd']] [] []
        (.success (.obj [(kPhraseList, .arr
          [.obj [(kStr, .str ['g', 'o', 'o', 'd']), (kTag, .str ['t'])],
           .obj [(kStr, .str ['b', 'a', 'd', 't', 'i', 'm', 'e']), (kTag, .str ['t'])],
           .obj [(kStr, .str ['n', 'e', 'u', 't', 'r', 'a', 'l']), (kTag, .str ['t'])]])]))
        none =
      .ok (⟨1, 1, 3⟩,
        ⟨[['g', 'o', 'o', 'd']], [['b', 'a', 'd', 't', 'i', 'm', 'e']],
         [['n', 'e', 'u', 't', 'r', 'a', 'l']]⟩,
        some [['n', 'e', 'u', 't', 'r', 'a', 'l']]))
    ∧ ∀ (positive_list negative_list ws : List (List Char)),
        (classify positive_list negative_list ws).positive_num =
            ws.countP (fun w => decide (w ∈ positive_list))
          ∧ (classify positive_list negative_list ws).negative_num =
            ws.countP (fun w => !decide (w ∈ positive_list) &&
              negative_list.any (fun nw => containsSub nw w))
          ∧ (classify positive_list negative_list ws).unrecognized =
            ws.filter (fun w => !decide (w ∈ positive_list) &&
              !negative_list.any (fun nw => containsSub nw w)) := by
  refine ⟨rfl, ?_⟩
  intro positive_list negative_list ws
  refine ⟨?_, ?_, ?_⟩ <;> simp [classify_eq]

/-- C2: every failure of the segmentation call is converted into the
`{"error": <reason>}` marker payload instead of raising; on any such
failure `term_freq` returns an empty frequency mapping and empty label and
related lists, and `sentiment` returns a report with zero positive and
negative counts — both return normally (no exception escapes). -/
theorem segmentation_failure_resilience_c2 :
    ∀ (R : RegexChars) (positive_list negative_list meaningless : List (List Char))
      (text : List Char) (store : Option (List (List Char))),
      call_texsmart_api .requestFailed = .obj [(kError, .str msgRequestFailed)]
      ∧ call_texsmart_api .jsonDecodeFailed = .obj [(kError, .str msgJsonDecodeFailed)]
      ∧ call_texsmart_api .unexpectedError = .obj [(kError, .str msgUnexpectedError)]
      ∧ term_freq R meaningless text .requestFailed = .ok ⟨[], [], []⟩
      ∧ term_freq R meaningless text .jsonDecodeFailed = .ok ⟨[], [], []⟩
      ∧ term_freq R meaningless text .unexpectedError = .ok ⟨[], [], []⟩
      ∧ sentiment R positive_list negative_list meaningless text .requestFailed store =
          .ok (⟨0, 0, 0⟩, ⟨[], [], []⟩, save_unrecognized_words store [])
      ∧ sentiment R positive_list negative_list meaningless text .jsonDecodeFailed store =
          .ok (⟨0, 0, 0⟩, ⟨[], [], []⟩, save_unrecognized_words store [])
      ∧ sentiment R positive_list negative_list meaningless text .unexpectedError store =
          .ok (⟨0, 0, 0⟩, ⟨[], [], []⟩, save_unrecognized_words store []) := by
  intro R positive_list negative_list meaningless text store
  exact ⟨rfl, rfl, rfl, rfl, rfl, rfl, rfl, rfl, rfl⟩

/-- C3 counterexample: with meaningless dictionary `["ab"]` and text
`"aabb"`, one normalization pass yields `"ab"` and a second pass yields
`""`, so `normalize (normalize t) ≠ normalize t` — the normalizer is not
idempotent for every input text. -/
theorem normalize_not_idempotent_c3 :
    remove_meaningless [['a', 'b']] (remove_meaningless [['a', 'b']] ['a', 'a', 'b', 'b']) ≠
      remove_meaningless [['a', 'b']] ['a', 'a', 'b', 'b'] := by decide

/-- C3 amended: on text already free of every (nonempty) meaningless
phrase, normalization is the identity, hence idempotent there:
`normalize (normalize t) = normalize t`. -/
theorem normalize_idempotent_on_free_c3 :
    ∀ (meaningless : List (List Char)) (t : List Char),
      (∀ w ∈ meaningless, w = [] ∨ containsSub w t = false) →
      remove_meaningless meaningless (remove_meaningless meaningless t) =
        remove_meaningless meaningless t := by
  intro meaningless t h
  rw [remove_meaningless_id meaningless t h, remove_meaningless_id meaningless t h]

/-- C3 witness: the amended statement at dictionary `["ab"]`, text `"xy"`. -/
theorem normalize_idempotent_on_free_c3_witness :
    remove_meaningless [['a', 'b']] (remove_meaningless [['a', 'b']] ['x', 'y']) =
      remove_meaningless [['a', 'b']] ['x', 'y'] :=
  normalize_idempotent_on_free_c3 [['a', 'b']] ['x', 'y'] (by decide)

/-- C4 counterexample: an entity record lacking the `"type"` key makes the
response normalization raise a `KeyError` — it is not total on responses
with absent keys. -/
theorem parse_raises_on_missing_type_c4 :
    parse_texsmart_response
        (.obj [(kEntityList, .arr [.obj [(kStr, .str ['x']), (kTag, .str ['t'])]])]) =
      .error (.keyError kType) := rfl

/-- C4 amended: the empty-default policy covers exactly the keys read with
`.get` — the three top-level lists, and an entity's `meaning`, `related`
and `i18n` — while each item's `str` and `tag` keys and each entity's
`type` key are mandatory and their absence raises a `KeyError`. -/
theorem parse_defaults_c4 :
    parse_texsmart_response (.obj []) = .ok ⟨[], [], []⟩
    ∧ (∀ e : List Char, parse_texsmart_response (.obj [(kError, .str e)]) = .ok ⟨[], [], []⟩)
    ∧ (∀ s t : List Char,
        parse_texsmart_response
            (.obj [(kEntityList,
              .arr [.obj [(kStr, .str s), (kTag, .str t), (kType, .obj [])]])]) =
          .ok ⟨[], [], [⟨s, t, [], []⟩]⟩)
    ∧ (∀ s t : List Char,
        parse_texsmart_response
            (.obj [(kWordList, .arr [.obj [(kStr, .str s), (kTag, .str t)]])]) =
          .ok ⟨[⟨s, t⟩], [], []⟩) :=
  ⟨rfl, fun _ => rfl, fun _ _ => rfl, fun _ _ => rfl⟩

/-- C5 counterexample: an entity label `"5"` — a single-character,
pure-digit token — survives into the label (i18n) output of `term_freq`,
because the label and related lists are only filtered for non-word
characters, so the claim that such tokens never appear in any output is
false. -/
theorem digit_label_in_output_c5 :
    term_freq asciiRegex [] []
        (.success (.obj [(kEntityList, .arr
          [.obj [(kStr, .str ['x', 'x']), (kTag, .str ['t']),
                 (kType, .obj [(kI18n, .str ['5'])])]])])) =
      .ok ⟨[], [['5']], []⟩
    ∧ (['5'] : List Char).all asciiRegex.isDigit = true
    ∧ (['5'] : List Char).length = 1 :=
  ⟨rfl, rfl, rfl⟩

/-- C5 amended: every key of the frequency mapping consists of word
characters only, has length above one, is not purely digits, and matches no
digit+unit pattern; the label and related-concept outputs are guaranteed
free only of tokens containing a non-word character. -/
theorem token_filtering_c5 :
    ∀ (R : RegexChars) (meaningless : List (List Char)) (text : List Char)
      (outcome : ApiOutcome) (r : TermFreqResult),
      term_freq R meaningless text outcome = .ok r →
      (∀ p ∈ r.freq,
        p.1.all R.isWord = true
        ∧ 1 < p.1.length
        ∧ (!p.1.isEmpty && p.1.all R.isDigit) = false
        ∧ searchDigitsUnit R.isDigit '年' p.1 = false
        ∧ searchDigitsUnit R.isDigit '月' p.1 = false
        ∧ searchDigitsUnit R.isDigit '日' p.1 = false
        ∧ searchDigitsUnit R.isDigit '分' p.1 = false)
      ∧ (∀ w ∈ r.i18n_list, w.all R.isWord = true)
      ∧ (∀ w ∈ r.related_list, w.all R.isWord = true) := by
  intro R meaningless text outcome r h
  cases hp : parse_texsmart_response (call_texsmart_api outcome) with
  | error e => simp [term_freq, hp] at h
  | ok parsed =>
    simp only [term_freq, hp] at h
    have hr : termFreqOnParsed R parsed = r := Except.ok.inj h
    subst hr
    simp only [termFreqOnParsed]
    refine ⟨?_, ?_, ?_⟩
    · intro p hp2
      have hk := counterOf_keys _ p hp2
      rw [mem_sortedDedup] at hk
      simp only [remove_unless_words, List.mem_filter] at hk
      obtain ⟨hmem, hpred⟩ := hk
      simp only [remove_punctuation, List.mem_filter] at hmem
      simp only [Bool.and_eq_true, Bool.not_eq_eq_eq_not, Bool.not_true,
        decide_eq_true_eq] at hpred
      obtain ⟨hlen, hunw⟩ := hpred
      simp only [is_unwanted, Bool.or_eq_false_iff] at hunw
      exact ⟨hmem.2, hlen, hunw.1.1.1.1, hunw.1.1.1.2, hunw.1.1.2, hunw.1.2, hunw.2⟩
    · intro w hw
      rw [mem_sortedDedup] at hw
      simp only [remove_punctuation, List.mem_filter] at hw
      exact hw.2
    · intro w hw
      rw [mem_sortedDedup] at hw
      simp only [remove_punctuation, List.mem_filter] at hw
      exact hw.2

/-- C5 witness: the amended statement applied to a run whose frequency
mapping contains the surviving token `"ab"`. -/
theorem token_filtering_c5_witness :
    (['a', 'b'] : List Char).all asciiRegex.isWord = true ∧
      1 < (['a', 'b'] : List Char).length := by
  have h := token_filtering_c5 asciiRegex [] []
    (.success (.obj [(kWordList, .arr
      [.obj [(kStr, .str ['a', 'b']), (kTag, .str ['t'])]])]))
    ⟨[(['a', 'b'], 1)], [], []⟩ rfl
  have h2 := h.1 (['a', 'b'], 1) (List.mem_singleton.mpr rfl)
  exact ⟨h2.1, h2.2.1⟩

/-- C6: for a fixed normalized response the frequency mapping is computed by
`Counter` over the already-deduplicated, sorted surviving token sequence
(term_freq is a function of the response, hence deterministic), and
therefore every count it reports equals 1. -/
theorem term_freq_counts_one_c6 :
    ∀ R : RegexChars,
      (∀ parsed : ParsedData,
        (termFreqOnParsed R parsed).freq =
          counterOf (sortedDedup (remove_unless_words R.isDigit
            (remove_punctuation R.isWord (parsed.word_list.map TokenItem.str)))))
      ∧ (∀ (meaningless : List (List Char)) (text : List Char) (outcome : ApiOutcome)
          (r : TermFreqResult),
          term_freq R meaningless text outcome = .ok r → ∀ p ∈ r.freq, p.2 = 1) := by
  intro R
  refine ⟨fun parsed => rfl, ?_⟩
  intro meaningless text outcome r h p hp
  cases hparse : parse_texsmart_response (call_texsmart_api outcome) with
  | error e => simp [term_freq, hparse] at h
  | ok parsed =>
    simp only [term_freq, hparse] at h
    have hr : termFreqOnParsed R parsed = r := Except.ok.inj h
    subst hr
    simp only [termFreqOnParsed] at hp
    exact counterOf_count_one _ (nodup_sortedDedup _) p hp

/-- C6 witness: the count-equals-one clause applied to a concrete run whose
frequency mapping has the single entry `("ab", 1)`. -/
theorem term_freq_counts_one_c6_witness :
    ((['a', 'b'], 1) : List Char × Nat).2 = 1 :=
  (term_freq_counts_one_c6 asciiRegex).2 [] []
    (.success (.obj [(kWordList, .arr
      [.obj [(kStr, .str ['a', 'b']), (kTag, .str ['t'])]])]))
    ⟨[(['a', 'b'], 1)], [], []⟩ rfl (['a', 'b'], 1) (List.mem_singleton.mpr rfl)

/-- C7: persisting unrecognized words stores exactly the deduplicated sorted
union of the previously stored list (empty for an absent file) and the new
tokens; membership is the union of memberships, the stored list is
duplicate-free, and a second run never loses a previously stored token. -/
theorem unrecognized_store_monotone_c7 :
    ∀ (store : Option (List (List Char))) (ws1 ws2 : List (List Char)),
      save_unrecognized_words store ws1 = some (sortedDedup (storeWords store ++ ws1))
      ∧ (∀ w, w ∈ storeWords (save_unrecognized_words store ws1) ↔
          w ∈ storeWords store ∨ w ∈ ws1)
      ∧ (storeWords (save_unrecognized_words store ws1)).Nodup
      ∧ (∀ w ∈ storeWords (save_unrecognized_words store ws1),
          w ∈ storeWords (save_unrecognized_words (save_unrecognized_words store ws1) ws2)) := by
  intro store ws1 ws2
  refine ⟨rfl, ?_, ?_, ?_⟩
  · intro w
    show w ∈ sortedDedup (storeWords store ++ ws1) ↔ _
    rw [mem_sortedDedup, List.mem_append]
  · exact nodup_sortedDedup _
  · intro w hw
    show w ∈ sortedDedup (sortedDedup (storeWords store ++ ws1) ++ ws2)
    rw [mem_sortedDedup, List.mem_append]
    exact Or.inl hw

/-- C7 witness: a token stored by a first run persists through a second run
with a disjoint token. -/
theorem unrecognized_store_monotone_c7_witness :
    (['a'] : List Char) ∈
      storeWords (save_unrecognized_words (save_unrecognized_words none [['a']]) [['b']]) :=
  (unrecognized_store_monotone_c7 none [['a']] [['b']]).2.2.2 ['a'] (by decide)

/-- C8: within one process, starting from an empty cache, the source is read
exactly once for every requested dictionary name and never for others, every
load returns the source's data for its name (so later loads return the
value cached by the first), and the run serves each request in order. -/
theorem dictionary_cache_c8 :
    ∀ (D : Type) (source : List Char → D) (files : List (List Char)) (f : List Char),
      countReads f (loadTrace source [] files) = (if f ∈ files then 1 else 0)
      ∧ (∀ e ∈ loadTrace source [] files, e.value = source e.name)
      ∧ (loadTrace source [] files).map LoadEvent.name = files := by
  intro D source files f
  exact ⟨countReads_once source f files [] (by simp),
    loadTrace_values source files [] (by simp),
    loadTrace_names source files []⟩

/-- C8 witness: in a run requesting `"a"` twice, the second (cache-hit)
load still returns the source's value. -/
theorem dictionary_cache_c8_witness :
    (⟨['a'], 0, false⟩ : LoadEvent Nat).value = 0 :=
  (dictionary_cache_c8 Nat (fun _ => 0) [['a'], ['a']] ['a']).2.1
    ⟨['a'], 0, false⟩ (by decide)

/-- C9: whenever `sentiment` returns a report, the positive and negative
counters sum to at most the surviving token count `word_num` (each token
increments at most one of the two counters; all fields are `Nat`). -/
theorem sentiment_counts_bound_c9 :
    ∀ (R : RegexChars) (positive_list negative_list meaningless : List (List Char))
      (text : List Char) (outcome : ApiOutcome) (store : Option (List (List Char)))
      (rep : SentimentReport) (bks : SentimentBuckets) (st : Option (List (List Char))),
      sentiment R positive_list negative_list meaningless text outcome store =
          .ok (rep, bks, st) →
      rep.positive_num + rep.negative_num ≤ rep.word_num := by
  intro R positive_list negative_list meaningless text outcome store rep bks st h
  cases hp : parse_texsmart_response (call_texsmart_api outcome) with
  | error e => simp [sentiment, hp] at h
  | ok parsed =>
    simp only [sentiment, hp] at h
    have h2 : sentimentOnParsed R positive_list negative_list parsed store =
        (rep, bks, st) := Except.ok.inj h
    have hrep : rep = (sentimentOnParsed R positive_list negative_list parsed store).1 := by
      rw [h2]
    rw [hrep]
    simp only [sentimentOnParsed]
    exact classify_le positive_list negative_list _

/-- C9 witness: the bound at a concrete successful run. -/
theorem sentiment_counts_bound_c9_witness :
    (⟨0, 0, 0⟩ : SentimentReport).positive_num + (⟨0, 0, 0⟩ : SentimentReport).negative_num ≤
      (⟨0, 0, 0⟩ : SentimentReport).word_num :=
  sentiment_counts_bound_c9 asciiRegex [] [] [] [] (.success (.obj [])) none
    ⟨0, 0, 0⟩ ⟨[], [], []⟩ (save_unrecognized_words none []) rfl

/-- C10: an entity whose `"type"` object lacks the `"i18n"` key gets the
empty string as its label; the empty string passes the punctuation filter
(which only drops tokens containing a non-word character), so the empty
string can appear in the label list returned by `term_freq`. -/
theorem empty_label_c10 :
    (∀ isWordChar : Char → Bool, remove_punctuation isWordChar [([] : List Char)] = [[]])
    ∧ (∀ s t : List Char,
        parseEntityItem (.obj [(kStr, .str s), (kTag, .str t), (kType, .obj [])]) =
          .ok ⟨s, t, [], []⟩)
    ∧ term_freq asciiRegex [] []
        (.success (.obj [(kEntityList, .arr
          [.obj [(kStr, .str ['x', 'x']), (kTag, .str ['t']), (kType, .obj [])]])])) =
      .ok ⟨[], [[]], []⟩ :=
  ⟨fun _ => rfl, fun _ _ => rfl, rfl⟩

end Waifu
